import Mathlib

/-!
# Verification of `videoanalyst/optim/optimizer/optimizer_base.py`

Shallow embedding of the `OptimizerBase` wrapper class:
hyper-parameter dict handling (`get_hps` / `set_hps`), derived-state
construction (`update_params`, `build_optimizer`), delegation
(`zero_grad`, `step`, `state_dict`) and learning-rate scheduling
(`schedule`).

Python dicts are modelled as insertion-ordered association lists over
`String` keys.  The external collaborators (learning-rate policy and
multiplier objects, the torch optimizer and the model) are not part of
the source file; they are modelled from the spec as records of
uninterpreted behaviour, and the effect of calls on the underlying
torch optimizer is recorded as an event trace.
-/

set_option autoImplicit false

namespace VideoAnalyst

/-- A configuration entry of an `lr_policy` / `lr_multiplier` config list
(the source treats these as opaque elements of a Python list; only the
length of the list is inspected in `optimizer_base.py`). -/
abbrev Cfg := String

/-- The yacs `CfgNode` handed to the constructor; `optimizer_base.py`
only stores it, so it is opaque here. -/
abbrev CfgNode := String

/-- A value stored in the hyper-parameter dict.  The defaults are lists
(`lr_policy=[]`, `lr_multiplier=[]`); `set_hps` may store arbitrary
Python values, represented by the other constructors. -/
inductive HPVal where
  | listv (l : List Cfg)
  | intv (n : Int)
  | strv (s : String)
deriving DecidableEq, Repr

/-- A Python dict with `String` keys: insertion-ordered association
list.  Python dict invariant (each key at most once) is stated as a
hypothesis where a claim needs it. -/
abbrev HPDict := List (String × HPVal)

/-- `k in d` for a Python dict. -/
def dictContains : HPDict → String → Bool
  | [], _ => false
  | p :: rest, k => if p.1 = k then true else dictContains rest k

/-- `d[k]` for a Python dict (first binding wins; under the nodup-keys
invariant there is at most one). -/
def dictGet : HPDict → String → Option HPVal
  | [], _ => none
  | p :: rest, k => if p.1 = k then some p.2 else dictGet rest k

/-- `d[k] = v` for a Python dict: in-place update keeps the position of
an existing key, a fresh key is appended at the end. -/
def dictSet (d : HPDict) (k : String) (v : HPVal) : HPDict :=
  if dictContains d k then
    d.map (fun p => if p.1 = k then (k, v) else p)
  else
    d ++ [(k, v)]

/-- The class attribute `OptimizerBase.default_hyper_params`:
`dict(lr_policy=[], lr_multiplier=[])`. -/
def default_hyper_params : HPDict :=
  [("lr_policy", HPVal.listv []), ("lr_multiplier", HPVal.listv [])]

/-- The loop body of `OptimizerBase.set_hps`:
`for key in hps: if key not in self._hyper_params: raise KeyError;
self._hyper_params[key] = hps[key]`.
Mutation is in place, so on a `KeyError` the updates already performed
survive: the `error` payload is the dict state at raise time. -/
def set_hps_go (d : HPDict) : List (String × HPVal) → Except HPDict HPDict
  | [] => Except.ok d
  | (k, v) :: rest =>
      if dictContains d k then set_hps_go (dictSet d k v) rest
      else Except.error d

/-- Folding the in-place updates of a list of entries over a dict
(used to describe the partial update performed before a `KeyError`). -/
def applyUpdates (d : HPDict) (l : List (String × HPVal)) : HPDict :=
  l.foldl (fun d p => dictSet d p.1 p.2) d

/-! ## Dict lemmas -/

theorem dictContains_dictSet (d : HPDict) (k k2 : String) (v : HPVal)
    (h : dictContains d k = true) :
    dictContains (dictSet d k v) k2 = dictContains d k2 := by
  unfold dictSet
  rw [if_pos h]
  clear h
  induction d with
  | nil => simp
  | cons p rest ih =>
      by_cases hpk : p.1 = k
      · by_cases hk2 : k = k2
        · simp [dictContains, hpk, hk2]
        · simp [dictContains, hpk, hk2, ih]
      · simp [dictContains, hpk, ih]

theorem keys_dictSet (d : HPDict) (k : String) (v : HPVal)
    (h : dictContains d k = true) :
    (dictSet d k v).map Prod.fst = d.map Prod.fst := by
  unfold dictSet
  rw [if_pos h]
  clear h
  induction d with
  | nil => simp
  | cons p rest ih =>
      by_cases hpk : p.1 = k
      · simp [hpk, ih]
      · simp [hpk, ih]

theorem dictGet_dictSet_same (d : HPDict) (k : String) (v : HPVal) :
    dictGet (dictSet d k v) k = some v := by
  unfold dictSet
  by_cases h : dictContains d k = true
  · rw [if_pos h]
    induction d with
    | nil => simp [dictContains] at h
    | cons p rest ih =>
        by_cases hpk : p.1 = k
        · simp [dictGet, hpk]
        · simp only [dictContains, hpk, if_false] at h
          simp [dictGet, hpk, ih h]
  · rw [if_neg h]
    induction d with
    | nil => simp [dictGet]
    | cons p rest ih =>
        simp only [dictContains] at h
        by_cases hpk : p.1 = k
        · simp [hpk] at h
        · simp only [hpk, if_false] at h
          simp [dictGet, hpk, ih h]

theorem dictGet_dictSet_other (d : HPDict) (k k2 : String) (v : HPVal)
    (hne : k2 ≠ k) :
    dictGet (dictSet d k v) k2 = dictGet d k2 := by
  unfold dictSet
  by_cases h : dictContains d k = true
  · rw [if_pos h]
    clear h
    induction d with
    | nil => simp
    | cons p rest ih =>
        by_cases hpk : p.1 = k
        · have hk2 : ¬(k = k2) := fun he => hne he.symm
          have hpk2 : ¬(p.1 = k2) := by rw [hpk]; exact hk2
          simp [dictGet, hpk, hk2, hpk2, ih]
        · by_cases hpk2 : p.1 = k2
          · simp [dictGet, hpk, hpk2, hne]
          · simp [dictGet, hpk, hpk2, ih]
  · rw [if_neg h]
    clear h
    induction d with
    | nil => simp [dictGet, hne.symm]
    | cons p rest ih =>
        by_cases hpk2 : p.1 = k2
        · simp [dictGet, hpk2]
        · simp [dictGet, hpk2, ih]

/-! ## External collaborators

The builder and helper functions (`build_lr_policy`, `schedule_lr`,
`build_lr_multiplier`, `multiply_lr`) live in
`optimizer_impl/utils/lr_policy.py` / `lr_multiply.py`, which are not
under `src/`; following the spec they are modelled as opaque behaviour:
builders are passed as parameters, the objects are records of their
observable methods. -/

/-- Modelled from the spec: the learning-rate policy object produced by
the external `build_lr_policy` (module `optimizer_impl/utils/lr_policy`,
missing from `src/`).  Per the spec glossary it is "a function of
training progress (epoch, iteration) to a scalar learning rate";
`schedule` only calls its `get_lr` method. -/
structure LRPolicy where
  get_lr : Int → Int → Rat

/-- Opaque handle for the externally built `nn.Module`. -/
structure Model where
  id : Nat
deriving DecidableEq, Repr

/-- Parameter groups as produced by `divide_into_param_groups`
(`List[Dict]`, k-v `params`); opaque contents. -/
abbrev ParamGroups := List (List Nat)

/-- Modelled from the spec: the learning-rate multiplier object produced
by the external `build_lr_multiplier` (module
`optimizer_impl/utils/lr_multiply`, missing from `src/`): per-parameter-
group scaling, exposing `divide_into_param_groups` (model → parameter
groups) and `multiply_lr` (applied to the torch optimizer, recorded as
an event below). -/
structure LRMultiplier where
  divide_into_param_groups : Model → ParamGroups

/-- What `build_optimizer` stores under `self._state["params"]`:
either the model's full parameter set `self._model.parameters()` or the
groups computed by the stored multiplier. -/
inductive ParamsVal where
  | fromModel (m : Model)
  | groups (g : ParamGroups)

/-- An observable call issued to the underlying torch optimizer. -/
inductive OptEvent where
  | zeroGrad
  | step
  | scheduleLR (lr : Rat)
  | multiplyLR (m : LRMultiplier)

/-- Modelled from the spec: the externally constructed torch optimizer
(`self._optimizer`).  Its numeric behaviour is external to this file;
the wrapper only issues calls to it, so it is a call trace plus an
opaque `state_dict` payload. -/
structure TorchOpt where
  events : List OptEvent
  sd : Nat

/-- `optimizer.zero_grad()`. -/
def TorchOpt.zero_grad (o : TorchOpt) : TorchOpt :=
  { o with events := o.events ++ [OptEvent.zeroGrad] }

/-- `optimizer.step()`. -/
def TorchOpt.step (o : TorchOpt) : TorchOpt :=
  { o with events := o.events ++ [OptEvent.step] }

/-- `optimizer.state_dict()`: returns the optimizer's own state dict. -/
def TorchOpt.state_dict (o : TorchOpt) : Nat := o.sd

/-- Modelled from the spec: `schedule_lr(optimizer, lr)` of the external
`lr_policy` module applies the scalar `lr` to the optimizer. -/
def schedule_lr (o : TorchOpt) (lr : Rat) : TorchOpt :=
  { o with events := o.events ++ [OptEvent.scheduleLR lr] }

/-- Modelled from the spec: `lr_multiplier.multiply_lr(optimizer)`
applies per-group scaling to the optimizer. -/
def multiply_lr (m : LRMultiplier) (o : TorchOpt) : TorchOpt :=
  { o with events := o.events ++ [OptEvent.multiplyLR m] }

/-! ## The wrapper class -/

/-- The wrapper's `self._state` dict.  `optimizer_base.py` only ever
reads or writes the keys `"lr_policy"`, `"lr_multiplier"` and
`"params"`, so the dict is a record of three optional entries; a key is
present iff its field is `some`. -/
structure StateDict where
  lr_policy : Option LRPolicy := none
  lr_multiplier : Option LRMultiplier := none
  params : Option ParamsVal := none

/-- An `OptimizerBase` instance (value model; the by-reference sharing
of the class attribute is modelled separately below). -/
structure OptimizerBase where
  _hyper_params : HPDict
  _state : StateDict
  _cfg : CfgNode
  _model : Option Model
  _optimizer : Option TorchOpt

/-- `OptimizerBase.__init__(cfg)`. -/
def init (cfg : CfgNode) : OptimizerBase :=
  { _hyper_params := default_hyper_params
    _state := {}
    _cfg := cfg
    _model := none
    _optimizer := none }

/-- `OptimizerBase.get_hps`. -/
def get_hps (w : OptimizerBase) : HPDict :=
  w._hyper_params

/-- `OptimizerBase.set_hps`: on `KeyError` the partially updated dict
survives (the `error` branch), since the Python loop mutates in place. -/
def set_hps (w : OptimizerBase) (hps : List (String × HPVal)) :
    Except OptimizerBase OptimizerBase :=
  match set_hps_go w._hyper_params hps with
  | Except.ok d => Except.ok { w with _hyper_params := d }
  | Except.error d => Except.error { w with _hyper_params := d }

/-- `OptimizerBase.update_params`.  The two builder functions are
parameters (they are external to this file).  Returns `none` when a
hyper-parameter is missing or not a list (Python would raise before
reaching the branch bodies). -/
def update_params (bp : List Cfg → LRPolicy) (bm : List Cfg → LRMultiplier)
    (w : OptimizerBase) : Option OptimizerBase :=
  match dictGet w._hyper_params "lr_policy",
        dictGet w._hyper_params "lr_multiplier" with
  | some (HPVal.listv pol), some (HPVal.listv mul) =>
      let st1 :=
        if pol.length > 0 then { w._state with lr_policy := some (bp pol) }
        else w._state
      let st2 :=
        if mul.length > 0 then { st1 with lr_multiplier := some (bm mul) }
        else st1
      some { w with _state := st2 }
  | _, _ => none

/-- `OptimizerBase.set_model`. -/
def set_model (w : OptimizerBase) (m : Model) : OptimizerBase :=
  { w with _model := some m }

/-- `OptimizerBase.build_optimizer`: prepares `self._state["params"]`.
`none` when no model is registered (Python would fail on `None`). -/
def build_optimizer (w : OptimizerBase) : Option OptimizerBase :=
  match w._model with
  | none => none
  | some m =>
      let params :=
        match w._state.lr_multiplier with
        | some mult => ParamsVal.groups (mult.divide_into_param_groups m)
        | none => ParamsVal.fromModel m
      some { w with _state := { w._state with params := some params } }

/-- `OptimizerBase.zero_grad`: `self._optimizer.zero_grad()`. -/
def zero_grad (w : OptimizerBase) : Option OptimizerBase :=
  match w._optimizer with
  | none => none
  | some o => some { w with _optimizer := some o.zero_grad }

/-- `OptimizerBase.step`: `self._optimizer.step()`. -/
def step (w : OptimizerBase) : Option OptimizerBase :=
  match w._optimizer with
  | none => none
  | some o => some { w with _optimizer := some o.step }

/-- `OptimizerBase.state_dict`: `return self._optimizer.state_dict()`. -/
def state_dict (w : OptimizerBase) : Option Nat :=
  match w._optimizer with
  | none => none
  | some o => some o.state_dict

/-- The `schedule_info` dict returned by `schedule` (only the key
`"lr"` is ever written, mapping to a scalar learning rate). -/
abbrev SchedInfo := List (String × Rat)

/-- `OptimizerBase.schedule(epoch, iteration)`: returns the updated
wrapper and the `schedule_info` dict.  `none` when a branch dereferences
a missing `self._optimizer`. -/
def schedule (w : OptimizerBase) (epoch iteration : Int) :
    Option (OptimizerBase × SchedInfo) :=
  let step1 : Option (OptimizerBase × SchedInfo) :=
    match w._state.lr_policy with
    | none => some (w, [])
    | some p =>
        match w._optimizer with
        | none => none
        | some o =>
            let lr := p.get_lr epoch iteration
            some ({ w with _optimizer := some (schedule_lr o lr) }, [("lr", lr)])
  match step1 with
  | none => none
  | some (w1, info) =>
      match w1._state.lr_multiplier with
      | none => some (w1, info)
      | some m =>
          match w1._optimizer with
          | none => none
          | some o => some ({ w1 with _optimizer := some (multiply_lr m o) }, info)

/-! ## Reference semantics for `default_hyper_params` (class attribute)

`__init__` executes `self._hyper_params = self.default_hyper_params`:
no copy, so every instance aliases the single class-level dict object,
and in-place mutation through `set_hps` is visible to all instances. -/

/-- A heap of Python dict objects; an address is an index. -/
structure Heap where
  dicts : List HPDict

def Heap.get (h : Heap) (a : Nat) : HPDict :=
  h.dicts.getD a []

def Heap.set (h : Heap) (a : Nat) (d : HPDict) : Heap :=
  ⟨h.dicts.set a d⟩

/-- The address of the class attribute
`OptimizerBase.default_hyper_params`. -/
def classDictAddr : Nat := 0

/-- A heap holding only the class attribute with its literal contents
`dict(lr_policy=[], lr_multiplier=[])`. -/
def initHeap : Heap :=
  ⟨[default_hyper_params]⟩

/-- The reference cell `self._hyper_params` of an instance (the other
instance fields are irrelevant to the aliasing claim). -/
structure InstanceRef where
  hp_ref : Nat

/-- `__init__` under reference semantics: the assignment
`self._hyper_params = self.default_hyper_params` stores the address of
the class attribute; no dict is allocated or copied, and the heap is
untouched. -/
def initRef (_cfg : CfgNode) : InstanceRef :=
  { hp_ref := classDictAddr }

/-- `get_hps` under reference semantics: dereference. -/
def get_hps_ref (h : Heap) (w : InstanceRef) : HPDict :=
  h.get w.hp_ref

/-- `set_hps` under reference semantics: in-place mutation of the dict
object `self._hyper_params` points to. -/
def set_hps_ref (h : Heap) (w : InstanceRef) (hps : List (String × HPVal)) :
    Except Heap Heap :=
  match set_hps_go (h.get w.hp_ref) hps with
  | Except.ok d => Except.ok (h.set w.hp_ref d)
  | Except.error d => Except.error (h.set w.hp_ref d)

/-! ## Lemmas about the `set_hps` loop -/

theorem dictContains_eq_mem_keys (d : HPDict) (k : String) :
    dictContains d k = decide (k ∈ d.map Prod.fst) := by
  induction d with
  | nil => simp [dictContains]
  | cons p rest ih =>
      by_cases hpk : p.1 = k
      · simp [dictContains, hpk]
      · have : ¬(k = p.1) := fun he => hpk he.symm
        simp [dictContains, hpk, ih, this]

theorem applyUpdates_cons (d : HPDict) (q : String × HPVal)
    (rest : List (String × HPVal)) :
    applyUpdates d (q :: rest) = applyUpdates (dictSet d q.1 q.2) rest := by
  simp [applyUpdates, List.foldl_cons]

theorem keys_applyUpdates (l : List (String × HPVal)) :
    ∀ d : HPDict, (∀ p ∈ l, dictContains d p.1 = true) →
    (applyUpdates d l).map Prod.fst = d.map Prod.fst := by
  induction l with
  | nil => intro d _; simp [applyUpdates]
  | cons q rest ih =>
      intro d h
      have hq : dictContains d q.1 = true := h q (List.mem_cons_self q rest)
      obtain ⟨k, v⟩ := q
      rw [applyUpdates_cons]
      have hkeys : (dictSet d k v).map Prod.fst = d.map Prod.fst :=
        keys_dictSet d k v hq
      rw [ih (dictSet d k v) ?_, hkeys]
      intro p hp
      rw [dictContains_eq_mem_keys, hkeys, ← dictContains_eq_mem_keys]
      exact h p (List.mem_cons_of_mem _ hp)

theorem set_hps_go_ok_of_known (l : List (String × HPVal)) :
    ∀ d : HPDict, (∀ p ∈ l, dictContains d p.1 = true) →
    set_hps_go d l = Except.ok (applyUpdates d l) := by
  induction l with
  | nil => intro d _; simp [set_hps_go, applyUpdates]
  | cons q rest ih =>
      intro d h
      have hq : dictContains d q.1 = true := h q (List.mem_cons_self q rest)
      obtain ⟨k, v⟩ := q
      rw [applyUpdates_cons]
      simp only [set_hps_go, hq, if_pos]
      apply ih
      intro p hp
      rw [dictContains_dictSet d k p.1 v hq]
      exact h p (List.mem_cons_of_mem _ hp)

theorem dictGet_applyUpdates_not_mem (l : List (String × HPVal)) :
    ∀ d : HPDict, ∀ k : String, k ∉ l.map Prod.fst →
    dictGet (applyUpdates d l) k = dictGet d k := by
  induction l with
  | nil => intro d k _; simp [applyUpdates]
  | cons q rest ih =>
      intro d k hk
      obtain ⟨k1, v1⟩ := q
      simp only [List.map_cons, List.mem_cons] at hk
      push_neg at hk
      rw [applyUpdates_cons, ih (dictSet d k1 v1) k hk.2,
          dictGet_dictSet_other d k1 k v1 hk.1]

theorem dictGet_applyUpdates_mem (l : List (String × HPVal)) :
    ∀ d : HPDict, (l.map Prod.fst).Nodup →
    ∀ p ∈ l, dictGet (applyUpdates d l) p.1 = some p.2 := by
  induction l with
  | nil => intro d _ p hp; cases hp
  | cons q rest ih =>
      intro d hnd p hp
      simp only [List.map_cons, List.nodup_cons] at hnd
      rw [applyUpdates_cons]
      rcases List.mem_cons.mp hp with he | hrest
      · rw [he]
        rw [dictGet_applyUpdates_not_mem rest (dictSet d q.1 q.2) q.1 hnd.1]
        exact dictGet_dictSet_same d q.1 q.2
      · exact ih (dictSet d q.1 q.2) hnd.2 p hrest

theorem set_hps_go_error_split (pre : List (String × HPVal)) :
    ∀ d : HPDict, ∀ k : String, ∀ v : HPVal, ∀ rest : List (String × HPVal),
    (∀ p ∈ pre, dictContains d p.1 = true) →
    dictContains d k = false →
    set_hps_go d (pre ++ (k, v) :: rest) = Except.error (applyUpdates d pre) := by
  induction pre with
  | nil =>
      intro d k v rest _ hk
      simp [set_hps_go, applyUpdates, hk]
  | cons q prest ih =>
      intro d k v rest hpre hk
      have hq : dictContains d q.1 = true := hpre q (List.mem_cons_self q prest)
      obtain ⟨k1, v1⟩ := q
      rw [applyUpdates_cons]
      simp only [List.cons_append, set_hps_go, hq, if_pos]
      apply ih (dictSet d k1 v1) k v rest
      · intro p hp
        rw [dictContains_dictSet d k1 p.1 v1 hq]
        exact hpre p (List.mem_cons_of_mem _ hp)
      · rw [dictContains_dictSet d k1 k v1 hq]
        exact hk

theorem set_hps_go_error_iff_unknown (l : List (String × HPVal)) :
    ∀ d : HPDict,
    (∃ e, set_hps_go d l = Except.error e) ↔
      (∃ p ∈ l, dictContains d p.1 = false) := by
  induction l with
  | nil =>
      intro d
      constructor
      · rintro ⟨e, he⟩; simp [set_hps_go] at he
      · rintro ⟨p, hp, _⟩; cases hp
  | cons q rest ih =>
      intro d
      obtain ⟨k1, v1⟩ := q
      by_cases hq : dictContains d k1 = true
      · simp only [set_hps_go, hq, if_pos]
        constructor
        · intro he
          rcases (ih (dictSet d k1 v1)).mp he with ⟨p, hp, hpc⟩
          refine ⟨p, List.mem_cons_of_mem _ hp, ?_⟩
          rw [← dictContains_dictSet d k1 p.1 v1 hq]
          exact hpc
        · rintro ⟨p, hp, hpc⟩
          rcases List.mem_cons.mp hp with he | hrest
          · exfalso
            rw [he] at hpc
            rw [hpc] at hq
            cases hq
          · apply (ih (dictSet d k1 v1)).mpr
            refine ⟨p, hrest, ?_⟩
            rw [dictContains_dictSet d k1 p.1 v1 hq]
            exact hpc
      · have hqf : dictContains d k1 = false := by
          cases hc : dictContains d k1
          · rfl
          · exact absurd hc hq
        simp only [set_hps_go, hqf, Bool.false_eq_true, if_false]
        constructor
        · intro _
          exact ⟨(k1, v1), List.mem_cons_self _ rest, hqf⟩
        · intro _
          exact ⟨d, rfl⟩

/-- Key membership transfers between dicts with equal key lists. -/
theorem dictContains_congr_keys (d1 d2 : HPDict) (k : String)
    (h : d1.map Prod.fst = d2.map Prod.fst) :
    dictContains d1 k = dictContains d2 k := by
  rw [dictContains_eq_mem_keys, dictContains_eq_mem_keys, h]

/-- Inversion for a successful `set_hps` loop: every key was already
present, and the result is the fold of the in-place updates. -/
theorem set_hps_go_ok_inv (l : List (String × HPVal)) :
    ∀ d d2 : HPDict, set_hps_go d l = Except.ok d2 →
    (∀ p ∈ l, dictContains d p.1 = true) ∧ d2 = applyUpdates d l := by
  induction l with
  | nil =>
      intro d d2 h
      simp only [set_hps_go, Except.ok.injEq] at h
      exact ⟨fun p hp => absurd hp (List.not_mem_nil p), by simp [applyUpdates, h]⟩
  | cons q rest ih =>
      intro d d2 h
      by_cases hq : dictContains d q.1 = true
      · simp only [set_hps_go, hq, if_pos] at h
        rcases ih (dictSet d q.1 q.2) d2 h with ⟨hall, hres⟩
        refine ⟨?_, by rw [applyUpdates_cons]; exact hres⟩
        intro p hp
        rcases List.mem_cons.mp hp with he | hrest
        · rw [he]; exact hq
        · rw [← dictContains_dictSet d q.1 p.1 q.2 hq]
          exact hall p hrest
      · exfalso
        have hqf : dictContains d q.1 = false := by
          cases hc : dictContains d q.1
          · rfl
          · exact absurd hc hq
        simp [set_hps_go, hqf] at h

/-! ## Claims -/

/-- A hyper-parameter dict with one recognized key followed by one
unrecognized key (used for the C1 scenario). -/
def c1hps : List (String × HPVal) :=
  [("lr_policy", HPVal.listv ["x"]), ("bogus", HPVal.intv 0)]

/-- C1 counterexample: `hps` holds a key (`"bogus"`) unknown to the
defaults; `set_hps` on a fresh wrapper raises `KeyError` as claimed,
but the hyper-parameter state is NOT left unchanged: the recognized
entry `"lr_policy" ↦ ["x"]` iterated before the unknown key has already
been written when the error is raised. -/
theorem C1_counterexample :
    (∃ p ∈ c1hps, dictContains default_hyper_params p.1 = false) ∧
    set_hps (init "") c1hps = Except.error
      { _hyper_params := [("lr_policy", HPVal.listv ["x"]),
                          ("lr_multiplier", HPVal.listv [])]
        _state := {}
        _cfg := ""
        _model := none
        _optimizer := none } ∧
    ([("lr_policy", HPVal.listv ["x"]), ("lr_multiplier", HPVal.listv [])]
      : HPDict) ≠ get_hps (init "") := by
  refine ⟨by decide, rfl, by decide⟩

/-- C1 (amended): if `hps` holds a key not among the default
hyper-parameter keys (the wrapper's key list being the default one),
`set_hps` raises `KeyError`; the resulting hyper-parameter state is the
original with exactly the entries strictly before the first
unrecognized key applied — unchanged only when no recognized entry
precedes the first unknown key. -/
theorem C1_set_hps_unknown_key (w : OptimizerBase)
    (hps : List (String × HPVal))
    (hkeys : (get_hps w).map Prod.fst = default_hyper_params.map Prod.fst)
    (h : ∃ p ∈ hps, dictContains default_hyper_params p.1 = false) :
    (∃ e, set_hps w hps = Except.error e) ∧
    (∀ pre k v rest, hps = pre ++ (k, v) :: rest →
      (∀ p ∈ pre, dictContains default_hyper_params p.1 = true) →
      dictContains default_hyper_params k = false →
      set_hps w hps = Except.error
        { w with _hyper_params := applyUpdates w._hyper_params pre }) := by
  have hconv : ∀ k2, dictContains w._hyper_params k2 =
      dictContains default_hyper_params k2 := by
    intro k2
    exact dictContains_congr_keys _ _ k2 hkeys
  constructor
  · have hunk : ∃ p ∈ hps, dictContains w._hyper_params p.1 = false := by
      rcases h with ⟨p, hp, hpc⟩
      exact ⟨p, hp, by rw [hconv]; exact hpc⟩
    rcases (set_hps_go_error_iff_unknown hps w._hyper_params).mpr hunk
      with ⟨e, he⟩
    refine ⟨{ w with _hyper_params := e }, ?_⟩
    simp [set_hps, he]
  · intro pre k v rest hsplit hpre hk
    have hgo : set_hps_go w._hyper_params (pre ++ (k, v) :: rest) =
        Except.error (applyUpdates w._hyper_params pre) := by
      apply set_hps_go_error_split
      · intro p hp
        rw [hconv]
        exact hpre p hp
      · rw [hconv]
        exact hk
    rw [hsplit]
    simp [set_hps, hgo]

/-- C1 witness: the amended claim evaluated on the concrete scenario of
the counterexample. -/
theorem C1_set_hps_unknown_key_witness :
    (∃ e, set_hps (init "") c1hps = Except.error e) ∧
    set_hps (init "") c1hps = Except.error
      { init "" with
        _hyper_params := applyUpdates (init "")._hyper_params
          [("lr_policy", HPVal.listv ["x"])] } := by
  have h := C1_set_hps_unknown_key (init "") c1hps (by decide) (by decide)
  exact ⟨h.1,
    h.2 [("lr_policy", HPVal.listv ["x"])] "bogus" (HPVal.intv 0) [] rfl
      (by decide) (by decide)⟩

/-- A fully recognized hyper-parameter dict (used for the C2 witness). -/
def c2hps : List (String × HPVal) :=
  [("lr_policy", HPVal.listv ["a"]), ("lr_multiplier", HPVal.listv ["b", "c"])]

/-- C2: when every key of `hps` is a recognized default key (the
wrapper's key list being the default one), `set_hps` succeeds and
afterwards `get_hps` maps each key of `hps` to the value given in
`hps`; and `set_hps` fails (raises `KeyError`) exactly when some key of
`hps` is not a recognized default key. -/
theorem C2_set_hps_known_keys (w : OptimizerBase)
    (hps : List (String × HPVal))
    (hkeys : (get_hps w).map Prod.fst = default_hyper_params.map Prod.fst)
    (hnd : (hps.map Prod.fst).Nodup) :
    ((∀ p ∈ hps, dictContains default_hyper_params p.1 = true) →
      ∃ w2, set_hps w hps = Except.ok w2 ∧
        ∀ p ∈ hps, dictGet (get_hps w2) p.1 = some p.2) ∧
    ((∃ e, set_hps w hps = Except.error e) ↔
      ∃ p ∈ hps, dictContains default_hyper_params p.1 = false) := by
  have hconv : ∀ k2, dictContains w._hyper_params k2 =
      dictContains default_hyper_params k2 := by
    intro k2
    exact dictContains_congr_keys _ _ k2 hkeys
  constructor
  · intro hall
    have hall2 : ∀ p ∈ hps, dictContains w._hyper_params p.1 = true := by
      intro p hp
      rw [hconv]
      exact hall p hp
    have hgo := set_hps_go_ok_of_known hps w._hyper_params hall2
    refine ⟨{ w with _hyper_params := applyUpdates w._hyper_params hps },
      by simp [set_hps, hgo], ?_⟩
    intro p hp
    exact dictGet_applyUpdates_mem hps w._hyper_params hnd p hp
  · constructor
    · rintro ⟨e, he⟩
      have hgo : ∃ d, set_hps_go w._hyper_params hps = Except.error d := by
        cases hres : set_hps_go w._hyper_params hps with
        | ok d => simp [set_hps, hres] at he
        | error d => exact ⟨d, rfl⟩
      rcases (set_hps_go_error_iff_unknown hps w._hyper_params).mp hgo
        with ⟨p, hp, hpc⟩
      refine ⟨p, hp, ?_⟩
      rw [← hconv]
      exact hpc
    · intro hunk
      have hunk2 : ∃ p ∈ hps, dictContains w._hyper_params p.1 = false := by
        rcases hunk with ⟨p, hp, hpc⟩
        exact ⟨p, hp, by rw [hconv]; exact hpc⟩
      rcases (set_hps_go_error_iff_unknown hps w._hyper_params).mpr hunk2
        with ⟨e, he⟩
      exact ⟨{ w with _hyper_params := e }, by simp [set_hps, he]⟩

/-- C2 witness: all keys of `c2hps` are recognized; `set_hps` succeeds
on a fresh wrapper and `get_hps` reports the values of `c2hps`. -/
theorem C2_set_hps_known_keys_witness :
    ∃ w2, set_hps (init "") c2hps = Except.ok w2 ∧
      ∀ p ∈ c2hps, dictGet (get_hps w2) p.1 = some p.2 :=
  (C2_set_hps_known_keys (init "") c2hps (by decide) (by decide)).1 (by decide)

/-- A concrete learning-rate policy builder used to instantiate
witnesses (the real builder is external to the file). -/
def constPolicyBuilder : List Cfg → LRPolicy :=
  fun _ => { get_lr := fun _ _ => 1 }

/-- A concrete learning-rate multiplier builder used to instantiate
witnesses (the real builder is external to the file). -/
def constMultBuilder : List Cfg → LRMultiplier :=
  fun _ => { divide_into_param_groups := fun _ => [[0]] }

/-- C3: when the two hyper-parameters are the lists `pol` and `mul`,
`update_params` succeeds and the new internal state holds the built
policy object under `lr_policy` exactly when `pol` is non-empty (the
entry keeps its previous value otherwise), and likewise the built
multiplier object under `lr_multiplier` exactly when `mul` is
non-empty; no other field changes. -/
theorem C3_update_params_builds (bp : List Cfg → LRPolicy)
    (bm : List Cfg → LRMultiplier) (w : OptimizerBase) (pol mul : List Cfg)
    (hp : dictGet w._hyper_params "lr_policy" = some (HPVal.listv pol))
    (hm : dictGet w._hyper_params "lr_multiplier" = some (HPVal.listv mul)) :
    update_params bp bm w = some
      { w with _state :=
        { w._state with
          lr_policy :=
            if pol.length > 0 then some (bp pol) else w._state.lr_policy
          lr_multiplier :=
            if mul.length > 0 then some (bm mul) else w._state.lr_multiplier } } := by
  unfold update_params
  rw [hp, hm]
  by_cases h1 : pol.length > 0 <;> by_cases h2 : mul.length > 0 <;>
    simp [h1, h2]

/-- C3 witness: fresh wrapper (both config lists empty), concrete
builders; `update_params` succeeds and both state entries keep their
previous value `none`. -/
theorem C3_update_params_builds_witness :
    update_params constPolicyBuilder constMultBuilder (init "") = some
      { init "" with _state :=
        { (init "")._state with
          lr_policy :=
            if ([] : List Cfg).length > 0 then some (constPolicyBuilder [])
            else (init "")._state.lr_policy
          lr_multiplier :=
            if ([] : List Cfg).length > 0 then some (constMultBuilder [])
            else (init "")._state.lr_multiplier } } :=
  C3_update_params_builds constPolicyBuilder constMultBuilder (init "")
    [] [] (by decide) (by decide)

/-- A policy object already present in the internal state before
`update_params` runs (C4 scenario). -/
def c4policy : LRPolicy :=
  { get_lr := fun _ _ => 2 }

/-- A wrapper whose hyper-parameter lists are both empty (the defaults)
but whose internal state already holds an `"lr_policy"` entry. -/
def c4w : OptimizerBase :=
  { init "" with _state := { lr_policy := some c4policy } }

/-- C4 counterexample: both hyper-parameter lists are empty, the
internal state already holds an `"lr_policy"` entry, and after
`update_params` the entry is STILL present (the method never deletes
state keys), contradicting the claim that the state ends without it. -/
theorem C4_counterexample :
    dictGet c4w._hyper_params "lr_policy" = some (HPVal.listv []) ∧
    dictGet c4w._hyper_params "lr_multiplier" = some (HPVal.listv []) ∧
    (update_params constPolicyBuilder constMultBuilder c4w).map
      (fun w2 => w2._state.lr_policy.isSome) = some true := by
  refine ⟨by decide, by decide, rfl⟩

/-- C4 (amended): with both hyper-parameter lists empty,
`update_params` leaves the internal state exactly as it was — it adds
neither an `"lr_policy"` nor an `"lr_multiplier"` entry, so the state
ends without those keys whenever it did not already contain them;
pre-existing entries, however, are retained, not removed. -/
theorem C4_update_params_empty (bp : List Cfg → LRPolicy)
    (bm : List Cfg → LRMultiplier) (w : OptimizerBase)
    (hp : dictGet w._hyper_params "lr_policy" = some (HPVal.listv []))
    (hm : dictGet w._hyper_params "lr_multiplier" = some (HPVal.listv [])) :
    update_params bp bm w = some w := by
  unfold update_params
  rw [hp, hm]
  simp

/-- C4 witness: on a fresh wrapper (both lists empty, no state keys)
`update_params` returns the wrapper unchanged, hence without the keys. -/
theorem C4_update_params_empty_witness :
    update_params constPolicyBuilder constMultBuilder (init "") =
      some (init "") ∧
    (init "")._state.lr_policy = none ∧
    (init "")._state.lr_multiplier = none :=
  ⟨C4_update_params_empty constPolicyBuilder constMultBuilder (init "")
      (by decide) (by decide),
    rfl, rfl⟩

/-- C5: with a registered model, `build_optimizer` stores under
`"params"` the groups computed by the stored multiplier's
`divide_into_param_groups` applied to the model when an
`"lr_multiplier"` state entry is present, and the model's full
parameter set (`model.parameters()`) otherwise; nothing else changes. -/
theorem C5_build_optimizer_params (w : OptimizerBase) (m : Model)
    (h : w._model = some m) :
    build_optimizer w = some
      { w with _state :=
        { w._state with params := some (match w._state.lr_multiplier with
            | some mult => ParamsVal.groups (mult.divide_into_param_groups m)
            | none => ParamsVal.fromModel m) } } := by
  unfold build_optimizer
  rw [h]

/-- C5 witness: fresh wrapper with a registered model and no
multiplier; `"params"` receives the model's full parameter set. -/
theorem C5_build_optimizer_params_witness :
    build_optimizer (set_model (init "") { id := 7 }) = some
      { set_model (init "") { id := 7 } with _state :=
        { (set_model (init "") { id := 7 })._state with
          params := some (match
              (set_model (init "") { id := 7 })._state.lr_multiplier with
            | some mult =>
                ParamsVal.groups (mult.divide_into_param_groups { id := 7 })
            | none => ParamsVal.fromModel { id := 7 }) } } :=
  C5_build_optimizer_params (set_model (init "") { id := 7 }) { id := 7 } rfl

/-- A concrete multiplier object stored in the state for the C6
scenario. -/
def c6mult : LRMultiplier :=
  { divide_into_param_groups := fun _ => [] }

/-- A wrapper whose state holds only an `"lr_multiplier"` entry, with a
fresh underlying optimizer. -/
def c6w : OptimizerBase :=
  { init "" with
    _state := { lr_multiplier := some c6mult }
    _optimizer := some { events := [], sd := 0 } }

/-- C6 counterexample: with only a multiplier stored, `schedule`
applies an adjustment to the underlying optimizer (its call trace grows
from 0 to 1 events) yet returns the empty dict — the applied
adjustment is NOT reflected in the returned dict. -/
theorem C6_counterexample :
    c6w._optimizer.map (fun o => o.events.length) = some 0 ∧
    (schedule c6w 0 0).map
      (fun r => (r.1._optimizer.map (fun o => o.events.length), r.2)) =
      some (some 1, ([] : SchedInfo)) :=
  ⟨rfl, rfl⟩

/-- C6 (amended): with the underlying optimizer present, `schedule`
computes `lr = policy.get_lr(epoch, iteration)` and applies it via
`schedule_lr` when a policy is stored, recording it under `"lr"` in the
returned dict; it applies the multiplier via `multiply_lr` when one is
stored; the multiplier application is not recorded in the returned
dict. -/
theorem C6_schedule_applies (w : OptimizerBase) (epoch iteration : Int)
    (o : TorchOpt) (ho : w._optimizer = some o) :
    schedule w epoch iteration = some
      ({ w with _optimizer := some ⟨o.events ++
          ((match w._state.lr_policy with
            | some p => [OptEvent.scheduleLR (p.get_lr epoch iteration)]
            | none => []) ++
           (match w._state.lr_multiplier with
            | some m => [OptEvent.multiplyLR m]
            | none => [])), o.sd⟩ },
       (match w._state.lr_policy with
        | some p => [("lr", p.get_lr epoch iteration)]
        | none => ([] : SchedInfo))) := by
  obtain ⟨hpd, st, cfg, mdl, opt⟩ := w
  obtain ⟨oev, osd⟩ := o
  cases ho
  cases hp : st.lr_policy <;> cases hm : st.lr_multiplier <;>
    simp [schedule, schedule_lr, multiply_lr, hp, hm]

/-- A concrete policy object for the C6 witness. -/
def c6policy : LRPolicy :=
  { get_lr := fun _ _ => 3 }

/-- A wrapper holding both a policy and a multiplier, with a fresh
underlying optimizer. -/
def c6wFull : OptimizerBase :=
  { init "" with
    _state := { lr_policy := some c6policy, lr_multiplier := some c6mult }
    _optimizer := some { events := [], sd := 0 } }

/-- C6 witness: the amended claim evaluated with both a policy and a
multiplier present: both adjustments are applied, only `"lr"` is
reported. -/
theorem C6_schedule_applies_witness :
    schedule c6wFull 0 0 = some
      ({ c6wFull with
         _optimizer := some ⟨[OptEvent.scheduleLR (c6policy.get_lr 0 0),
           OptEvent.multiplyLR c6mult], 0⟩ },
       [("lr", c6policy.get_lr 0 0)]) :=
  C6_schedule_applies c6wFull 0 0 { events := [], sd := 0 } rfl

/-- C7: when the internal state holds neither an `"lr_policy"` nor an
`"lr_multiplier"` entry, `schedule` returns the empty dict and the
wrapper — in particular the underlying optimizer — unchanged. -/
theorem C7_schedule_no_config (w : OptimizerBase) (epoch iteration : Int)
    (hp : w._state.lr_policy = none) (hm : w._state.lr_multiplier = none) :
    schedule w epoch iteration = some (w, []) := by
  simp [schedule, hp, hm]

/-- C7 witness: a fresh wrapper has neither entry; `schedule` reports
nothing and changes nothing. -/
theorem C7_schedule_no_config_witness :
    schedule (init "") 5 7 = some (init "", []) :=
  C7_schedule_no_config (init "") 5 7 rfl rfl

/-- C8: with an underlying optimizer `o` set, `zero_grad` and `step`
append exactly the identically-named call to `o`'s trace and change no
other wrapper field, and `state_dict` returns `o`'s own state dict
unchanged (the wrapper, being untouched, keeps `_hyper_params`,
`_state`, `_model` and `_cfg`). -/
theorem C8_delegation (w : OptimizerBase) (o : TorchOpt)
    (h : w._optimizer = some o) :
    zero_grad w = some
      { w with _optimizer := some ⟨o.events ++ [OptEvent.zeroGrad], o.sd⟩ } ∧
    step w = some
      { w with _optimizer := some ⟨o.events ++ [OptEvent.step], o.sd⟩ } ∧
    state_dict w = some o.sd := by
  obtain ⟨oev, osd⟩ := o
  refine ⟨?_, ?_, ?_⟩ <;>
    simp [zero_grad, step, state_dict, h,
      TorchOpt.zero_grad, TorchOpt.step, TorchOpt.state_dict]

/-- A wrapper with a registered underlying optimizer for the C8
witness. -/
def c8w : OptimizerBase :=
  { init "" with _optimizer := some { events := [], sd := 42 } }

/-- C8 witness: delegation evaluated on a concrete wrapper. -/
theorem C8_delegation_witness :
    zero_grad c8w = some
      { c8w with _optimizer := some ⟨[OptEvent.zeroGrad], 42⟩ } ∧
    step c8w = some
      { c8w with _optimizer := some ⟨[OptEvent.step], 42⟩ } ∧
    state_dict c8w = some 42 :=
  C8_delegation c8w { events := [], sd := 42 } rfl

/-- C10: whenever `schedule` returns, the returned dict has `"lr"` as
its only possible key; it holds `"lr"` (mapped to the policy's computed
rate) exactly when an `"lr_policy"` entry is present; a multiplier
application is never recorded. -/
theorem C10_schedule_info_keys (w : OptimizerBase) (epoch iteration : Int)
    (w2 : OptimizerBase) (info : SchedInfo)
    (h : schedule w epoch iteration = some (w2, info)) :
    (∀ q ∈ info, q.1 = "lr") ∧
    (info = [] ∨ ∃ lr, info = [("lr", lr)]) ∧
    ((∃ lr, ("lr", lr) ∈ info) ↔ (w._state.lr_policy).isSome = true) := by
  cases hp : w._state.lr_policy with
  | none =>
      have hinfo : info = [] := by
        cases hm : w._state.lr_multiplier with
        | none =>
            simp [schedule, hp, hm] at h
            exact h.2
        | some m =>
            cases ho : w._optimizer with
            | none => simp [schedule, hp, hm, ho] at h
            | some o =>
                simp [schedule, hp, hm, ho] at h
                exact h.2
      subst hinfo
      simp
  | some p =>
      have hinfo : info = [("lr", p.get_lr epoch iteration)] := by
        cases ho : w._optimizer with
        | none => simp [schedule, hp, ho] at h
        | some o =>
            cases hm : w._state.lr_multiplier with
            | none =>
                simp [schedule, hp, ho, hm] at h
                exact h.2.symm
            | some m =>
                simp [schedule, hp, ho, hm] at h
                exact h.2.symm
      subst hinfo
      refine ⟨by simp, Or.inr ⟨p.get_lr epoch iteration, rfl⟩, ?_⟩
      simp

/-- C10 witness: evaluated on a fresh wrapper (no policy): the returned
dict is empty and holds no `"lr"`. -/
theorem C10_schedule_info_keys_witness :
    (∀ q ∈ ([] : SchedInfo), q.1 = "lr") ∧
    (([] : SchedInfo) = [] ∨ ∃ lr, ([] : SchedInfo) = [("lr", lr)]) ∧
    ((∃ lr, ("lr", lr) ∈ ([] : SchedInfo)) ↔
      ((init "")._state.lr_policy).isSome = true) :=
  C10_schedule_info_keys (init "") 0 0 (init "") [] rfl

/-- C9: two instances `A` and `B` constructed in sequence (with
arbitrary config nodes) both alias the class-level
`default_hyper_params` dict object: a successful `set_hps` through `A`
mutates that shared object in place, and `B.get_hps()` afterwards
reads the mutated values — each key of `hps` now maps to the value `A`
set, and `B`'s view is exactly the mutated class dict. -/
theorem C9_shared_class_defaults (h : Heap) (hps : List (String × HPVal))
    (h2 : Heap)
    (hlen : classDictAddr < h.dicts.length)
    (hnd : (hps.map Prod.fst).Nodup)
    (hok : set_hps_ref h (initRef "cfgA") hps = Except.ok h2) :
    get_hps_ref h2 (initRef "cfgB") = h2.get classDictAddr ∧
    get_hps_ref h2 (initRef "cfgB") =
      applyUpdates (get_hps_ref h (initRef "cfgB")) hps ∧
    ∀ p ∈ hps, dictGet (get_hps_ref h2 (initRef "cfgB")) p.1 = some p.2 := by
  have hgo : ∃ d, set_hps_go (h.get classDictAddr) hps = Except.ok d ∧
      h2 = h.set classDictAddr d := by
    cases hres : set_hps_go (h.get classDictAddr) hps with
    | ok d =>
        refine ⟨d, rfl, ?_⟩
        unfold set_hps_ref at hok
        simp only [initRef, Heap.get] at hres ⊢
        simp only [initRef, Heap.get, hres] at hok
        exact (Except.ok.inj hok).symm
    | error d =>
        exfalso
        unfold set_hps_ref at hok
        simp only [initRef, Heap.get] at hres
        simp only [initRef, Heap.get, hres] at hok
        exact Except.noConfusion hok
  rcases hgo with ⟨d, hgo, hh2⟩
  rcases set_hps_go_ok_inv hps (h.get classDictAddr) d hgo with ⟨_, hd⟩
  have hget : (h.set classDictAddr d).get classDictAddr = d := by
    cases hdl : h.dicts with
    | nil => rw [hdl] at hlen; simp [classDictAddr] at hlen
    | cons d0 rest => simp [Heap.get, Heap.set, hdl, classDictAddr]
  have hB : get_hps_ref h2 (initRef "cfgB") = d := by
    rw [hh2]
    exact hget
  refine ⟨by rw [hB, hh2, hget], by rw [hB, hd]; rfl, ?_⟩
  intro p hp
  rw [hB, hd]
  exact dictGet_applyUpdates_mem hps (h.get classDictAddr) hnd p hp

/-- The dict instance `A` writes through `set_hps` in the C9 witness
scenario. -/
def c9hps : List (String × HPVal) :=
  [("lr_policy", HPVal.listv ["x"])]

/-- The heap after `A`'s successful `set_hps` in the C9 witness
scenario: the single class dict object, mutated. -/
def c9heap2 : Heap :=
  ⟨[[("lr_policy", HPVal.listv ["x"]), ("lr_multiplier", HPVal.listv [])]]⟩

/-- C9 witness: starting from the pristine class attribute, `A` sets
`lr_policy := ["x"]`; `B` (a distinct instance, different config)
afterwards reads `["x"]` — not the original default `[]`. -/
theorem C9_shared_class_defaults_witness :
    get_hps_ref c9heap2 (initRef "cfgB") = c9heap2.get classDictAddr ∧
    get_hps_ref c9heap2 (initRef "cfgB") =
      applyUpdates (get_hps_ref initHeap (initRef "cfgB")) c9hps ∧
    (∀ p ∈ c9hps, dictGet (get_hps_ref c9heap2 (initRef "cfgB")) p.1 =
      some p.2) ∧
    dictGet (get_hps_ref c9heap2 (initRef "cfgB")) "lr_policy" ≠
      dictGet (get_hps_ref initHeap (initRef "cfgB")) "lr_policy" := by
  have h := C9_shared_class_defaults initHeap c9hps c9heap2
    (by decide) (by decide) rfl
  exact ⟨h.1, h.2.1, h.2.2, by decide⟩

end VideoAnalyst
